import Mathlib

/-!
Verification development for the git-account-manager extension.

Shallow embedding of the core services:
* `SecretStorageService` (src/services/secretStorage.ts) — the VS Code secret
  store is modelled as an association list from string keys to secrets.
* `AccountManager` (src/services/accountManager.ts) — the in-memory account
  list plus the secret store form a `ManagerState`.  The nondeterministic
  environment inputs of `generateId` (`Date.now()` and the base-36 suffix of
  `Math.random()`) are passed explicitly as a natural number and a string.
* `RepoMappingService` (src/services/repoMappingService.ts) — the mapping
  `Map` is an insertion-ordered association list; the `.gitaccount` file and
  the remote URL are inputs (reading is external I/O; a malformed or missing
  file is `none`, exactly as the catch-clause of `readGitAccountFile` yields
  `undefined`).
* `GitService` (src/services/gitService.ts) — `configureSSHForAccount` is
  modelled as a pure function from the current remote URL to the URL passed
  to `setRemoteUrl` (`none` = no call); the SSH config file content is an
  `Option String` (`none` = unreadable/missing file).

JavaScript string truthiness (`if (x)` on an optional string) is modelled by
`truthy`, which is false for `undefined`/`none` and for the empty string.
-/

/-- Authentication type of an account: `'ssh' | 'pat'` (src/types.ts). -/
inductive AuthType where
  | ssh : AuthType
  | pat : AuthType
deriving DecidableEq, Repr

/-- The `GitAccount` interface (src/types.ts).  Note the record has no token
field: a personal access token is never part of the account record. -/
structure GitAccount where
  id : String
  name : String
  username : String
  email : String
  authType : AuthType
  sshKeyPath : Option String
  sshHost : Option String
deriving DecidableEq, Repr

/-- The `RepoMapping` interface (src/types.ts). -/
structure RepoMapping where
  repoPath : String
  accountId : String
  remotePattern : Option String
deriving DecidableEq, Repr

/-- The `GitAccountConfig` interface (src/types.ts): content of a parsed
`.gitaccount` file, both fields optional. -/
structure GitAccountConfig where
  accountId : Option String
  accountName : Option String
deriving DecidableEq, Repr

/-- The argument of `addAccount`: `Omit<GitAccount, 'id'>`. -/
structure AccountDraft where
  name : String
  username : String
  email : String
  authType : AuthType
  sshKeyPath : Option String
  sshHost : Option String
deriving DecidableEq, Repr

/-- JavaScript truthiness of an optional string: `undefined` and `""` are
falsy, every other string is truthy. -/
def truthy : Option String → Bool
  | none => false
  | some s => s ≠ ""

/-- JavaScript `haystack.includes(needle)` (substring containment). -/
def strIncludes (haystack needle : String) : Bool :=
  decide (needle.toList <:+: haystack.toList)

/-- `STORAGE_KEYS.PAT_PREFIX` (src/types.ts): the fixed namespace prepended
to the account id to form the secret-store key. -/
def patKeyBase : String := "gitManager.pat."

/-- `vscode.SecretStorage.store`: set the value of a key (replacing any
previous value for that key). -/
def storeSecret (secrets : List (String × String)) (key value : String) :
    List (String × String) :=
  (key, value) :: secrets.filter (fun p => p.fst ≠ key)

/-- `vscode.SecretStorage.delete`: remove a key. -/
def deleteSecret (secrets : List (String × String)) (key : String) :
    List (String × String) :=
  secrets.filter (fun p => p.fst ≠ key)

/-- `vscode.SecretStorage.get`: look a key up. -/
def getSecret (secrets : List (String × String)) (key : String) : Option String :=
  (secrets.find? (fun p => p.fst = key)).map (·.snd)

/-- `SecretStorageService.storeToken` (src/services/secretStorage.ts line 13):
store under `PAT_PREFIX + accountId`. -/
def storeToken (secrets : List (String × String)) (accountId token : String) :
    List (String × String) :=
  storeSecret secrets (patKeyBase ++ accountId) token

/-- `SecretStorageService.deleteToken` (src/services/secretStorage.ts line 29). -/
def deleteToken (secrets : List (String × String)) (accountId : String) :
    List (String × String) :=
  deleteSecret secrets (patKeyBase ++ accountId)

/-- One decimal digit character, for `0 ≤ d ≤ 9` (the only values it is
applied to, as `n % 10`); mirrors JavaScript's decimal rendering of numbers. -/
def digitChar (d : Nat) : Char :=
  if d = 0 then '0' else if d = 1 then '1' else if d = 2 then '2'
  else if d = 3 then '3' else if d = 4 then '4' else if d = 5 then '5'
  else if d = 6 then '6' else if d = 7 then '7' else if d = 8 then '8'
  else '9'

/-- Decimal digits of `n`, most significant first, `[]` for `0`; `fuel ≥ n`
makes the recursion structural. -/
def natToDigitsAux : Nat → Nat → List Char
  | 0, _ => []
  | fuel + 1, n =>
    if n = 0 then []
    else natToDigitsAux fuel (n / 10) ++ [digitChar (n % 10)]

/-- Decimal digit list of `n` (`[]` for `0`). -/
def natToDigits (n : Nat) : List Char := natToDigitsAux n n

/-- Decimal rendering of a natural number, as JavaScript's template-literal
interpolation `${Date.now()}` renders an integer. -/
def natRepr (n : Nat) : String :=
  if n = 0 then "0" else String.mk (natToDigits n)

/-- `AccountManager.generateId` (src/services/accountManager.ts line 41):
`account_${Date.now()}_${Math.random().toString(36).substr(2, 9)}`.
The environment supplies `now` (the timestamp) and `rand` (the base-36
random suffix). -/
def generateId (now : Nat) (rand : String) : String :=
  "account_" ++ natRepr now ++ "_" ++ rand

/-- The mutable state of `AccountManager` together with the secret store it
writes through: the `accounts` array and the key→secret map. -/
structure ManagerState where
  accounts : List GitAccount
  secrets : List (String × String)
deriving DecidableEq, Repr

/-- `AccountManager.getAccountById` (src/services/accountManager.ts line 96):
first account whose `id` matches. -/
def getAccountById (accounts : List GitAccount) (id : String) : Option GitAccount :=
  accounts.find? (fun acc => acc.id = id)

/-- JavaScript `toLowerCase()`, modelled character by character. -/
def strToLower (s : String) : String :=
  String.mk (s.toList.map Char.toLower)

/-- `AccountManager.getAccountByName` (src/services/accountManager.ts
line 103): first account whose lower-cased `name` matches the lower-cased
argument. -/
def getAccountByName (accounts : List GitAccount) (name : String) : Option GitAccount :=
  accounts.find? (fun acc => strToLower acc.name = strToLower name)

/-- `AccountManager.addAccount` (src/services/accountManager.ts line 48):
build the new record from the draft plus a fresh id, append it, and — when a
token is supplied (truthy) and the draft's auth type is `pat` — store the
token under the new id.  Returns the new account and the updated state.
Note there is no validation of any kind in this method. -/
def addAccount (st : ManagerState) (draft : AccountDraft) (pat : Option String)
    (now : Nat) (rand : String) : GitAccount × ManagerState :=
  let newAccount : GitAccount :=
    { id := generateId now rand
      name := draft.name
      username := draft.username
      email := draft.email
      authType := draft.authType
      sshKeyPath := draft.sshKeyPath
      sshHost := draft.sshHost }
  let accounts' := st.accounts ++ [newAccount]
  let secrets' :=
    if truthy pat ∧ draft.authType = AuthType.pat then
      storeToken st.secrets newAccount.id (pat.getD "")
    else st.secrets
  (newAccount, { accounts := accounts', secrets := secrets' })

/-- `AccountManager.removeAccount` (src/services/accountManager.ts line 68):
`findIndex` + `splice` removes the first record whose id matches; when the
removed record's auth type is `pat` its token is deleted; returns whether a
record was found, with the updated state. -/
def removeAccount (st : ManagerState) (id : String) : Bool × ManagerState :=
  match st.accounts.find? (fun acc => acc.id = id) with
  | none => (false, st)
  | some account =>
    let accounts' := st.accounts.eraseP (fun acc => acc.id = id)
    let secrets' :=
      if account.authType = AuthType.pat then deleteToken st.secrets id
      else st.secrets
    (true, { accounts := accounts', secrets := secrets' })

/-- JavaScript `trim()`: strip whitespace from both ends, modelled character
by character. -/
def strTrim (s : String) : String :=
  String.mk
    (((s.toList.dropWhile Char.isWhitespace).reverse.dropWhile
      Char.isWhitespace).reverse)

/-- The `validateInput` closure of the account-name input box in
`addAccountCommand` (src/ui/commands.ts lines 78–86): `some message` rejects
the input, `none` accepts it (`!value?.trim()` is true exactly when the
trimmed value is empty). -/
def validateAccountName (accounts : List GitAccount) (value : String) :
    Option String :=
  if strTrim value = "" then some "Name is required"
  else if (getAccountByName accounts value).isSome then
    some "An account with this name already exists"
  else none

/-- Strategy 1 of `RepoMappingService.detectAccountForRepo`
(src/services/repoMappingService.ts lines 98–112): the `.gitaccount` file
block.  `fileConfig` is the parsed file (`none` when the file is missing or
malformed).  The truthiness guards mirror `if (fileConfig.accountId)` and
`if (fileConfig.accountName)`. -/
def detectFromFile (accounts : List GitAccount)
    (fileConfig : Option GitAccountConfig) : Option String :=
  match fileConfig with
  | none => none
  | some cfg =>
    match (if truthy cfg.accountId then
            getAccountById accounts (cfg.accountId.getD "") else none) with
    | some account => some account.id
    | none =>
      match (if truthy cfg.accountName then
              getAccountByName accounts (cfg.accountName.getD "") else none) with
      | some account => some account.id
      | none => none

/-- Strategy 2 of `detectAccountForRepo` (lines 115–122): scan the mappings
in insertion order and return the account id of the first mapping whose
(truthy) `remotePattern` is a substring of the remote URL.  `remoteUrl` is
the result of `gitService.getRemoteUrl` (`none` when the call failed). -/
def detectFromRemote (mappings : List (String × RepoMapping))
    (remoteUrl : Option String) : Option String :=
  match remoteUrl with
  | none => none
  | some url =>
    (mappings.find? (fun p =>
      truthy p.snd.remotePattern &&
        strIncludes url (p.snd.remotePattern.getD ""))).map (·.snd.accountId)

/-- Strategy 3 of `detectAccountForRepo` (lines 125–128): the mapping stored
under the key `repoPath` in the `Map`. -/
def detectDirect (mappings : List (String × RepoMapping)) (repoPath : String) :
    Option String :=
  (mappings.find? (fun p => p.fst = repoPath)).map (·.snd.accountId)

/-- `RepoMappingService.detectAccountForRepo`
(src/services/repoMappingService.ts lines 96–131): the three strategies in
order, first hit wins, `none` when all fail. -/
def detectAccountForRepo (mappings : List (String × RepoMapping))
    (accounts : List GitAccount) (fileConfig : Option GitAccountConfig)
    (remoteUrl : Option String) (repoPath : String) : Option String :=
  match detectFromFile accounts fileConfig with
  | some id => some id
  | none =>
    match detectFromRemote mappings remoteUrl with
    | some id => some id
    | none => detectDirect mappings repoPath

/-- `RepoMappingService.writeGitAccountFile`
(src/services/repoMappingService.ts lines 136–149), produced file content:
looks the account up by id, throws `Error('Account not found')` when absent,
otherwise returns the `GitAccountConfig` value serialized to the file (JSON
round-trips the two string fields unchanged). -/
def writeGitAccountFile (accounts : List GitAccount) (accountId : String) :
    Except String GitAccountConfig :=
  match getAccountById accounts accountId with
  | none => Except.error "Account not found"
  | some account =>
    Except.ok { accountId := some account.id, accountName := some account.name }

/-- `writeGitAccountFile` with the filesystem effect made explicit: the
filesystem is an association list from repository paths to `.gitaccount`
contents; the throw happens before `writeFileSync`, so on error no file is
written, and on success the file at `repoPath` is overwritten. -/
def writeGitAccountFileFS (accounts : List GitAccount)
    (fs : List (String × GitAccountConfig)) (repoPath accountId : String) :
    Except String (List (String × GitAccountConfig)) :=
  match writeGitAccountFile accounts accountId with
  | Except.error e => Except.error e
  | Except.ok cfg => Except.ok ((repoPath, cfg) :: fs.filter (fun p => p.fst ≠ repoPath))

/-- Read a file from the association-list filesystem. -/
def fsRead (fs : List (String × GitAccountConfig)) (repoPath : String) :
    Option GitAccountConfig :=
  (fs.find? (fun p => p.fst = repoPath)).map (·.snd)

/-- A JavaScript regular-expression LineTerminator: `\n`, `\r`, U+2028
(line separator) or U+2029 (paragraph separator) — the characters `.` does
not match. -/
def jsLineTerm (c : Char) : Bool :=
  c = '\n' ∨ c = '\r' ∨ c.toNat = 0x2028 ∨ c.toNat = 0x2029

/-- The regular expression `/^git@([^:]+):(.+)$/` of
`GitService.configureSSHForAccount` (src/services/gitService.ts line 249),
on character lists: literal `git@`, then a nonempty run of non-`:`
characters (the host — `[^:]` excludes only `:`, so it may contain line
terminators), then `:`, then a nonempty remainder (the path) containing no
LineTerminator (`.` matches any other character). -/
def sshUrlMatchList (cs : List Char) : Option (List Char × List Char) :=
  match cs with
  | c1 :: c2 :: c3 :: c4 :: rest =>
    if c1 = 'g' ∧ c2 = 'i' ∧ c3 = 't' ∧ c4 = '@' then
      let host := rest.takeWhile (fun c => c ≠ ':')
      match rest.dropWhile (fun c => c ≠ ':') with
      | q :: p =>
        if q = ':' ∧ host ≠ [] ∧ p ≠ [] ∧ (∀ c ∈ p, jsLineTerm c = false) then
          some (host, p)
        else none
      | [] => none
    else none
  | _ => none

/-- The same regular expression on strings.  Without the `m` flag, `^`
anchors at the start of the input and `$` only at its very end, so the
whole string must match — a trailing newline makes the URL a non-match. -/
def sshUrlMatch (url : String) : Option (String × String) :=
  (sshUrlMatchList url.toList).map
    (fun hp => (String.mk hp.fst, String.mk hp.snd))

/-- `GitService.configureSSHForAccount` (src/services/gitService.ts
lines 236–256) as a pure function: given the current remote URL (`none` when
`getRemoteUrl` yields nothing), the result is the URL passed to
`setRemoteUrl`, and `none` means `setRemoteUrl` is never called (the remote
is left unmodified). -/
def configureSSHForAccount (account : GitAccount) (currentUrl : Option String) :
    Option String :=
  if account.authType ≠ AuthType.ssh ∨ ¬ truthy account.sshHost then none
  else
    match currentUrl with
    | none => none
    | some url =>
      match sshUrlMatch url with
      | some hp => some ("git@" ++ account.sshHost.getD "" ++ ":" ++ hp.snd)
      | none => none

/-- `GitService.generateSSHConfigEntry` (src/services/gitService.ts
lines 282–295): the appended block, empty when the account is not an SSH
account with a truthy host and key path. -/
def generateSSHConfigEntry (account : GitAccount) : String :=
  if account.authType ≠ AuthType.ssh ∨ ¬ truthy account.sshHost ∨
      ¬ truthy account.sshKeyPath then ""
  else
    "\n# Git Account Manager - " ++ account.name ++
    "\nHost " ++ account.sshHost.getD "" ++
    "\n    HostName github.com\n    User git\n    IdentityFile " ++
    account.sshKeyPath.getD "" ++
    "\n    IdentitiesOnly yes\n"

/-- `GitService.isSSHHostConfigured` (src/services/gitService.ts
lines 268–277): scan the config file text for `Host <alias>`; a missing or
unreadable file (the catch clause) counts as not configured.  `cfg` is the
config file content, `none` when the file cannot be read. -/
def isSSHHostConfigured (hostAlias : String) (cfg : Option String) : Bool :=
  match cfg with
  | none => false
  | some content => strIncludes content ("Host " ++ hostAlias)

/-- `GitService.addSSHConfigEntry` (src/services/gitService.ts
lines 300–325) as a transformation of the SSH config file content: guard on
SSH accounts with a truthy host, do nothing when the generated entry is
empty or the alias is already configured, otherwise append the entry
(`appendFileSync` creates the file when missing, hence `cfg.getD ""`). -/
def addSSHConfigEntry (account : GitAccount) (cfg : Option String) :
    Option String :=
  if account.authType ≠ AuthType.ssh ∨ ¬ truthy account.sshHost then cfg
  else if generateSSHConfigEntry account = "" then cfg
  else if isSSHHostConfigured (account.sshHost.getD "") cfg then cfg
  else some (cfg.getD "" ++ generateSSHConfigEntry account)

/-! ## Supporting lemmas -/

theorem truthy_some_iff (s : String) : truthy (some s) = true ↔ s ≠ "" := by
  simp [truthy]

theorem strIncludes_iff (haystack needle : String) :
    strIncludes haystack needle = true ↔ needle.toList <:+: haystack.toList := by
  simp [strIncludes]

theorem strIncludes_false_iff (haystack needle : String) :
    strIncludes haystack needle = false ↔ ¬ needle.toList <:+: haystack.toList := by
  simp [strIncludes]

theorem find?_filter_of_imp {α : Type} (l : List α) (p q : α → Bool)
    (h : ∀ x, p x = true → q x = true) :
    (l.filter q).find? p = l.find? p := by
  induction l with
  | nil => rfl
  | cons a l ih =>
    cases hq : q a with
    | false =>
      have hp : p a = false := by
        cases hpa : p a with
        | false => rfl
        | true => rw [h a hpa] at hq; exact hq
      rw [List.filter_cons_of_neg (by simp [hq]), ih, List.find?_cons, hp]
    | true =>
      rw [List.filter_cons_of_pos (by simp [hq]), List.find?_cons, List.find?_cons]
      cases hp : p a
      · exact ih
      · rfl

/-! ## C1: detection strategy order -/

/-- C1: `detectAccountForRepo` evaluates its strategies in the fixed order:
the `.gitaccount` file override first (a truthy `accountId` naming an
existing account wins immediately, over any mapping), then remote-pattern
mappings, then the direct mapping keyed by the path, and it returns `none`
only when all three strategies fail. -/
theorem detect_strategy_order (mappings : List (String × RepoMapping))
    (accounts : List GitAccount) (fileConfig : Option GitAccountConfig)
    (remoteUrl : Option String) (repoPath : String) :
    (∀ cfg a, fileConfig = some cfg → truthy cfg.accountId = true →
      getAccountById accounts (cfg.accountId.getD "") = some a →
      detectAccountForRepo mappings accounts fileConfig remoteUrl repoPath =
        some a.id)
    ∧ (∀ aid, detectFromFile accounts fileConfig = some aid →
      detectAccountForRepo mappings accounts fileConfig remoteUrl repoPath =
        some aid)
    ∧ (∀ aid, detectFromFile accounts fileConfig = none →
      detectFromRemote mappings remoteUrl = some aid →
      detectAccountForRepo mappings accounts fileConfig remoteUrl repoPath =
        some aid)
    ∧ (detectFromFile accounts fileConfig = none →
      detectFromRemote mappings remoteUrl = none →
      detectAccountForRepo mappings accounts fileConfig remoteUrl repoPath =
        detectDirect mappings repoPath)
    ∧ (detectAccountForRepo mappings accounts fileConfig remoteUrl repoPath =
        none →
      detectFromFile accounts fileConfig = none ∧
        detectFromRemote mappings remoteUrl = none ∧
        detectDirect mappings repoPath = none) := by
  refine ⟨?_, ?_, ?_, ?_, ?_⟩
  · intro cfg a hcfg ht hget
    subst hcfg
    simp only [detectAccountForRepo, detectFromFile, ht, if_pos, hget]
  · intro aid hfile
    simp only [detectAccountForRepo, hfile]
  · intro aid hfile hremote
    simp only [detectAccountForRepo, hfile, hremote]
  · intro hfile hremote
    simp only [detectAccountForRepo, hfile, hremote]
  · intro hnone
    unfold detectAccountForRepo at hnone
    rcases hfile : detectFromFile accounts fileConfig with _ | aid
    · rw [hfile] at hnone
      rcases hremote : detectFromRemote mappings remoteUrl with _ | aid
      · rw [hremote] at hnone
        exact ⟨rfl, rfl, hnone⟩
      · rw [hremote] at hnone
        exact absurd hnone (by simp)
    · rw [hfile] at hnone
      exact absurd hnone (by simp)

/-- C1 witness: with an account `idA` named by the repo file and a direct
path mapping to `idB`, detection returns `idA`. -/
theorem detect_strategy_order_witness :
    detectAccountForRepo
      [("/repo", { repoPath := "/repo", accountId := "idB", remotePattern := none })]
      [{ id := "idA", name := "A", username := "ua", email := "ea",
         authType := AuthType.ssh, sshKeyPath := none, sshHost := none },
       { id := "idB", name := "B", username := "ub", email := "eb",
         authType := AuthType.pat, sshKeyPath := none, sshHost := none }]
      (some { accountId := some "idA", accountName := none })
      (some "https://example.com/x.git") "/repo" = some "idA" :=
  (detect_strategy_order _ _ _ _ _).1
    { accountId := some "idA", accountName := none }
    { id := "idA", name := "A", username := "ua", email := "ea",
      authType := AuthType.ssh, sshKeyPath := none, sshHost := none }
    rfl (by decide) (by decide)

/-! ## C10: name fallback inside the file strategy -/

/-- C10: when the `.gitaccount` file's `accountId` does not resolve but its
(non-empty) `accountName` does resolve case-insensitively, detection returns
the name-resolved account's id instead of falling through to the later
strategies; and only when the file block as a whole resolves nothing does
detection proceed as if no file were present. -/
theorem detect_file_name_fallback (mappings : List (String × RepoMapping))
    (accounts : List GitAccount) (fileConfig : Option GitAccountConfig)
    (remoteUrl : Option String) (repoPath : String) :
    (∀ cfg i n a, fileConfig = some cfg → cfg.accountId = some i →
      getAccountById accounts i = none → cfg.accountName = some n → n ≠ "" →
      getAccountByName accounts n = some a →
      detectAccountForRepo mappings accounts fileConfig remoteUrl repoPath =
        some a.id)
    ∧ (detectFromFile accounts fileConfig = none →
      detectAccountForRepo mappings accounts fileConfig remoteUrl repoPath =
        detectAccountForRepo mappings accounts none remoteUrl repoPath) := by
  constructor
  · intro cfg i n a hcfg hid hbyid hname hn hbyname
    subst hcfg
    have hfile : detectFromFile accounts (some cfg) = some a.id := by
      simp only [detectFromFile, hid, hname]
      cases ht : truthy (some i) with
      | false => simp [ht, truthy, hn, hbyname]
      | true => simp [ht, truthy, hn, hbyid, hbyname]
    simp only [detectAccountForRepo, hfile]
  · intro hfile
    have h2 : detectFromFile accounts (none : Option GitAccountConfig) = none := rfl
    simp only [detectAccountForRepo, hfile, h2]

/-- C10 witness: file id `ghost` resolves to no account, file name `work`
resolves (case-insensitively) to the account named `Work`, and detection
returns that account's id even though a direct mapping points elsewhere. -/
theorem detect_file_name_fallback_witness :
    detectAccountForRepo
      [("/repo", { repoPath := "/repo", accountId := "idB", remotePattern := none })]
      [{ id := "idW", name := "Work", username := "u", email := "e",
         authType := AuthType.ssh, sshKeyPath := none, sshHost := none }]
      (some { accountId := some "ghost", accountName := some "work" })
      none "/repo" = some "idW" :=
  (detect_file_name_fallback _ _ _ _ _).1
    { accountId := some "ghost", accountName := some "work" } "ghost" "work"
    { id := "idW", name := "Work", username := "u", email := "e",
      authType := AuthType.ssh, sshKeyPath := none, sshHost := none }
    rfl rfl (by decide) rfl (by decide) (by decide)

/-! ## C6: write-then-detect round trip -/

/-- C6: for an account id (non-empty, as every registry-generated id is)
that exists in the registry, writing the repo account file and then running
detection with that file, no persisted mappings and the registry unchanged
returns exactly that id. -/
theorem write_then_detect_roundtrip (accounts : List GitAccount)
    (id : String) (cfg : GitAccountConfig) (remoteUrl : Option String)
    (repoPath : String) (hid : id ≠ "")
    (hw : writeGitAccountFile accounts id = Except.ok cfg) :
    detectAccountForRepo [] accounts (some cfg) remoteUrl repoPath = some id := by
  unfold writeGitAccountFile at hw
  rcases hget : getAccountById accounts id with _ | a
  · rw [hget] at hw; exact absurd hw (by simp)
  · rw [hget] at hw
    have hcfg : cfg = { accountId := some a.id, accountName := some a.name } := by
      cases hw; rfl
    have haid : a.id = id := by
      have h1 := List.find?_some hget
      simpa using h1
    subst hcfg
    have hfile : detectFromFile accounts
        (some { accountId := some a.id, accountName := some a.name }) =
        some id := by
      simp [detectFromFile, truthy, haid, hid, hget]
    simp only [detectAccountForRepo, hfile]

/-- C6 witness: writing the file for account `idW` and detecting with it
returns `idW`. -/
theorem write_then_detect_roundtrip_witness :
    writeGitAccountFile
        [{ id := "idW", name := "Work", username := "u", email := "e",
           authType := AuthType.ssh, sshKeyPath := none, sshHost := none }]
        "idW" =
      Except.ok { accountId := some "idW", accountName := some "Work" } ∧
    detectAccountForRepo []
        [{ id := "idW", name := "Work", username := "u", email := "e",
           authType := AuthType.ssh, sshKeyPath := none, sshHost := none }]
        (some { accountId := some "idW", accountName := some "Work" })
        none "/repo" = some "idW" :=
  ⟨rfl,
   write_then_detect_roundtrip
     [{ id := "idW", name := "Work", username := "u", email := "e",
        authType := AuthType.ssh, sshKeyPath := none, sshHost := none }]
     "idW" { accountId := some "idW", accountName := some "Work" } none "/repo"
     (by decide) rfl⟩

/-! ## C7: writing the repo account file -/

/-- C7: `writeGitAccountFileFS` fails with the not-found error and writes
nothing when the id references no account; for an existing account it writes
a file holding both the account's id and its name to the repository path,
overwriting any existing file there and leaving every other path unchanged. -/
theorem writeGitAccountFile_spec (accounts : List GitAccount)
    (fs : List (String × GitAccountConfig)) (repoPath accountId : String) :
    (getAccountById accounts accountId = none →
      writeGitAccountFileFS accounts fs repoPath accountId =
        Except.error "Account not found")
    ∧ (∀ a, getAccountById accounts accountId = some a →
      ∃ fs2, writeGitAccountFileFS accounts fs repoPath accountId =
          Except.ok fs2 ∧
        fsRead fs2 repoPath =
          some { accountId := some a.id, accountName := some a.name } ∧
        ∀ p, p ≠ repoPath → fsRead fs2 p = fsRead fs p) := by
  constructor
  · intro hnone
    simp only [writeGitAccountFileFS, writeGitAccountFile, hnone]
  · intro a ha
    refine ⟨(repoPath, { accountId := some a.id, accountName := some a.name }) ::
      fs.filter (fun p => p.fst ≠ repoPath), ?_, ?_, ?_⟩
    · simp only [writeGitAccountFileFS, writeGitAccountFile, ha]
    · simp [fsRead, List.find?_cons]
    · intro p hp
      have hne : ¬ (repoPath = p) := fun h => hp h.symm
      simp only [fsRead, List.find?_cons]
      have hhead : (decide (repoPath = p)) = false := by simp [hne]
      rw [hhead]
      rw [find?_filter_of_imp fs (fun q => q.fst = p) (fun q => q.fst ≠ repoPath)]
      intro x hx
      have hxp : x.fst = p := by simpa using hx
      simp [hxp, hp]

/-- C7 witness: an unknown id fails with the not-found error; a known id
writes the id-and-name file, overwriting the previous content at that path
and leaving other paths alone. -/
theorem writeGitAccountFile_spec_witness :
    writeGitAccountFileFS
        [{ id := "idW", name := "Work", username := "u", email := "e",
           authType := AuthType.ssh, sshKeyPath := none, sshHost := none }]
        [("/repo", { accountId := some "old", accountName := none })]
        "/repo" "ghost" = Except.error "Account not found" ∧
    ∃ fs2, writeGitAccountFileFS
        [{ id := "idW", name := "Work", username := "u", email := "e",
           authType := AuthType.ssh, sshKeyPath := none, sshHost := none }]
        [("/repo", { accountId := some "old", accountName := none })]
        "/repo" "idW" = Except.ok fs2 ∧
      fsRead fs2 "/repo" = some { accountId := some "idW", accountName := some "Work" } ∧
      ∀ p, p ≠ "/repo" → fsRead fs2 p =
        fsRead [("/repo", { accountId := some "old", accountName := none })] p := by
  constructor
  · exact (writeGitAccountFile_spec _ _ "/repo" "ghost").1 (by decide)
  · have h := (writeGitAccountFile_spec
      [{ id := "idW", name := "Work", username := "u", email := "e",
         authType := AuthType.ssh, sshKeyPath := none, sshHost := none }]
      [("/repo", { accountId := some "old", accountName := none })]
      "/repo" "idW").2
      { id := "idW", name := "Work", username := "u", email := "e",
        authType := AuthType.ssh, sshKeyPath := none, sshHost := none }
      (by decide)
    exact h

/-! ## C4: removing an account -/

theorem find?_eraseP_of_nodup (accounts : List GitAccount) (id : String)
    (h : (accounts.map (fun a => a.id)).Nodup) :
    (accounts.eraseP (fun acc => decide (acc.id = id))).find?
      (fun acc => decide (acc.id = id)) = none := by
  induction accounts with
  | nil => rfl
  | cons a l ih =>
    have h2 : a.id ∉ (l.map (fun a => a.id)) ∧ (l.map (fun a => a.id)).Nodup := by
      simpa [List.nodup_cons] using h
    rcases h2 with ⟨hnotin, hnd⟩
    by_cases ha : a.id = id
    · rw [List.eraseP_cons_of_pos (by simp [ha])]
      rw [List.find?_eq_none]
      intro x hx
      simp only [decide_eq_true_eq]
      intro hxid
      have hmem : a.id ∈ l.map (fun a => a.id) := by
        rw [ha, ← hxid]
        exact List.mem_map_of_mem (fun a => a.id) hx
      exact hnotin hmem
    · rw [List.eraseP_cons_of_neg (by simp [ha]), List.find?_cons]
      have hfa : (decide (a.id = id)) = false := by simp [ha]
      rw [hfa]
      exact ih hnd

/-- C4: `removeAccount` returns `true` exactly when an account with the id
is present; on a well-formed state (distinct ids) the removed id can no
longer be found and a second removal reports not-found; removing a
token-type account deletes its secret from the secret store; an unknown id
leaves the state entirely unchanged and reports not-found without error. -/
theorem removeAccount_spec (st : ManagerState) (id : String) :
    ((removeAccount st id).fst = true ↔ ∃ a ∈ st.accounts, a.id = id)
    ∧ (getAccountById st.accounts id = none → removeAccount st id = (false, st))
    ∧ ((st.accounts.map (fun a => a.id)).Nodup →
      getAccountById (removeAccount st id).snd.accounts id = none)
    ∧ ((st.accounts.map (fun a => a.id)).Nodup →
      (removeAccount (removeAccount st id).snd id).fst = false)
    ∧ (∀ a, getAccountById st.accounts id = some a →
      a.authType = AuthType.pat →
      getSecret (removeAccount st id).snd.secrets (patKeyBase ++ id) = none) := by
  have habs : ∀ _ : (st.accounts.map (fun a => a.id)).Nodup,
      getAccountById (removeAccount st id).snd.accounts id = none := by
    intro hnd
    unfold removeAccount
    cases hf : st.accounts.find? (fun acc => acc.id = id) with
    | none => simpa [getAccountById] using hf
    | some a => simpa [getAccountById] using find?_eraseP_of_nodup st.accounts id hnd
  refine ⟨?_, ?_, habs, ?_, ?_⟩
  · unfold removeAccount
    cases hf : st.accounts.find? (fun acc => acc.id = id) with
    | none =>
      simp only [List.find?_eq_none] at hf
      refine iff_of_false (by simp) ?_
      rintro ⟨a, ha, haid⟩
      have hne : ¬ a.id = id := by simpa using hf a ha
      exact hne haid
    | some a =>
      exact iff_of_true rfl
        ⟨a, List.mem_of_find?_eq_some hf, by simpa using List.find?_some hf⟩
  · intro hnone
    unfold removeAccount
    rw [show st.accounts.find? (fun acc => acc.id = id) = none from hnone]
  · intro hnd
    have hnotfound : ∀ st2 : ManagerState, getAccountById st2.accounts id = none →
        (removeAccount st2 id).fst = false := by
      intro st2 hn
      unfold removeAccount
      rw [show st2.accounts.find? (fun acc => acc.id = id) = none from hn]
    exact hnotfound _ (habs hnd)
  · intro a hf hpat
    have hstate : (removeAccount st id).snd.secrets = deleteToken st.secrets id := by
      unfold removeAccount
      rw [show st.accounts.find? (fun acc => acc.id = id) = some a from hf]
      dsimp only
      rw [hpat]
      simp
    rw [hstate]
    simp only [getSecret, deleteToken, deleteSecret]
    have hfind : (st.secrets.filter (fun p => p.fst ≠ (patKeyBase ++ id))).find?
        (fun p => p.fst = (patKeyBase ++ id)) = none := by
      rw [List.find?_eq_none]
      intro x hx
      have hmem := List.of_mem_filter hx
      simpa using hmem
    rw [hfind]
    rfl

/-- Fixture: a token-type account. -/
def acctP : GitAccount :=
  { id := "idP", name := "P", username := "u", email := "e",
    authType := AuthType.pat, sshKeyPath := none, sshHost := none }

/-- Fixture: a manager state holding `acctP` and its stored secret. -/
def stP : ManagerState :=
  { accounts := [acctP], secrets := [("gitManager.pat.idP", "tok")] }

/-- C4 witness: removing the token-type account `idP` succeeds, deletes its
secret, cannot be found afterwards, and a second removal reports not-found;
removing an unknown id leaves the state unchanged. -/
theorem removeAccount_spec_witness :
    (removeAccount stP "idP").fst = true ∧
    getAccountById (removeAccount stP "idP").snd.accounts "idP" = none ∧
    getSecret (removeAccount stP "idP").snd.secrets "gitManager.pat.idP" = none ∧
    (removeAccount (removeAccount stP "idP").snd "idP").fst = false ∧
    removeAccount stP "ghost" = (false, stP) := by
  refine ⟨?_, ?_, ?_, ?_, ?_⟩
  · exact (removeAccount_spec stP "idP").1.mpr ⟨acctP, by decide, rfl⟩
  · exact (removeAccount_spec stP "idP").2.2.1 (by decide)
  · exact (removeAccount_spec stP "idP").2.2.2.2 acctP (by decide) rfl
  · exact (removeAccount_spec stP "idP").2.2.2.1 (by decide)
  · exact (removeAccount_spec stP "ghost").2.1 (by decide)

/-! ## C9: no secret material on the account record -/

/-- C9: `addAccount` stores on the account collection exactly the draft's
identity fields plus the fresh id — the `GitAccount` record has no token
field, and the resulting collection does not depend on the supplied secret —
while a supplied token for a token-type draft is stored exclusively in the
secret store under the key `PAT_PREFIX ++ newId`; for non-token drafts the
secret store is untouched. -/
theorem addAccount_secret_isolation (st : ManagerState) (draft : AccountDraft)
    (pat : Option String) (now : Nat) (rand : String) :
    ((addAccount st draft pat now rand).snd.accounts =
      st.accounts ++ [(addAccount st draft pat now rand).fst])
    ∧ ((addAccount st draft pat now rand).fst =
      { id := generateId now rand, name := draft.name,
        username := draft.username, email := draft.email,
        authType := draft.authType, sshKeyPath := draft.sshKeyPath,
        sshHost := draft.sshHost })
    ∧ ((addAccount st draft pat now rand).snd.accounts =
      (addAccount st draft none now rand).snd.accounts)
    ∧ (∀ tok, pat = some tok → tok ≠ "" → draft.authType = AuthType.pat →
      (addAccount st draft pat now rand).snd.secrets =
        storeSecret st.secrets (patKeyBase ++ generateId now rand) tok)
    ∧ (draft.authType ≠ AuthType.pat →
      (addAccount st draft pat now rand).snd.secrets = st.secrets) := by
  refine ⟨rfl, rfl, rfl, ?_, ?_⟩
  · intro tok htok hne hpat
    subst htok
    simp [addAccount, truthy, hne, hpat, storeToken]
  · intro hne
    simp [addAccount, hne]

/-- C9 witness: adding a token-type draft with secret `tok` stores the token
under `gitManager.pat.` + the fresh id and appends a record with exactly the
draft's fields. -/
theorem addAccount_secret_isolation_witness :
    (addAccount { accounts := [], secrets := [] }
        { name := "P", username := "u", email := "e",
          authType := AuthType.pat, sshKeyPath := none, sshHost := none }
        (some "tok") 5 "abc").snd.secrets =
      storeSecret [] (patKeyBase ++ generateId 5 "abc") "tok" :=
  ((addAccount_secret_isolation { accounts := [], secrets := [] }
      { name := "P", username := "u", email := "e",
        authType := AuthType.pat, sshKeyPath := none, sshHost := none }
      (some "tok") 5 "abc").2.2.2.1) "tok" rfl (by decide) rfl

/-! ## C2: registry-side validation of drafts (corrected) -/

/-- Fixture: an SSH-less account named `Work`. -/
def acctWork : GitAccount :=
  { id := "id1", name := "Work", username := "u", email := "e",
    authType := AuthType.ssh, sshKeyPath := none, sshHost := none }

/-- Fixture: a draft named `work`, differing from `Work` only in case. -/
def draftDupWork : AccountDraft :=
  { name := "work", username := "u2", email := "e2",
    authType := AuthType.ssh, sshKeyPath := none, sshHost := none }

/-- C2 counterexample: the registry's `addAccount` itself performs no
validation.  Starting from a state whose only account is named `Work`,
adding a draft named `work` (differing only in case) is not rejected: the
stored collection changes (a second account is appended), contradicting the
claim that the registry rejects the draft and leaves the collection
unchanged. -/
theorem addAccount_registry_validation_cex :
    (addAccount { accounts := [acctWork], secrets := [] } draftDupWork
      none 5 "abc").snd.accounts.length = 2 ∧
    (addAccount { accounts := [acctWork], secrets := [] } draftDupWork
      none 5 "abc").snd.accounts ≠ [acctWork] := by
  constructor
  · rfl
  · intro h
    exact absurd (congrArg List.length h) (by decide)

/-- C2 (amended): the registry's `addAccount` never rejects a draft — for
every draft (empty or duplicate name included) it appends the new record and
returns it — while empty and case-insensitively duplicate names are rejected
only by the caller-side pre-validation of the add-account command, whose
validator flags a whitespace-only name and any name already used
case-insensitively. -/
theorem addAccount_no_registry_validation (st : ManagerState)
    (draft : AccountDraft) (pat : Option String) (now : Nat) (rand : String)
    (accounts : List GitAccount) (v : String) :
    ((addAccount st draft pat now rand).snd.accounts =
      st.accounts ++ [(addAccount st draft pat now rand).fst])
    ∧ (strTrim v = "" → validateAccountName accounts v = some "Name is required")
    ∧ ((∃ a ∈ accounts, strToLower a.name = strToLower v) →
      (validateAccountName accounts v).isSome = true) := by
  refine ⟨rfl, ?_, ?_⟩
  · intro htrim
    unfold validateAccountName
    rw [if_pos htrim]
  · rintro ⟨a, ha, hname⟩
    unfold validateAccountName
    by_cases htrim : strTrim v = ""
    · simp [htrim]
    · have hfound : (getAccountByName accounts v).isSome = true := by
        unfold getAccountByName
        rw [List.find?_isSome]
        exact ⟨a, ha, by simpa using hname⟩
      simp [htrim, hfound]

/-- C2 witness: the caller-side validator rejects the name `work` when an
account named `Work` exists, and rejects the empty name; the registry
appends regardless. -/
theorem addAccount_no_registry_validation_witness :
    (validateAccountName [acctWork] "work").isSome = true ∧
    validateAccountName [acctWork] "" = some "Name is required" :=
  ⟨(addAccount_no_registry_validation { accounts := [], secrets := [] }
      draftDupWork none 0 "" [acctWork] "work").2.2
    ⟨acctWork, by decide, by decide⟩,
   (addAccount_no_registry_validation { accounts := [], secrets := [] }
      draftDupWork none 0 "" [acctWork] "").2.1 (by decide)⟩

/-! ## C3: SSH remote URL rewriting (corrected) -/

/-- The regular expression accepts exactly the `git@host:path` shorthand:
on a URL assembled from a colon-free non-empty host and a non-empty path
free of line terminators, the match yields that host and path. -/
theorem sshUrlMatch_shorthand (host p : List Char) (hh : host ≠ [])
    (hc : ∀ c ∈ host, c ≠ ':') (hp : p ≠ [])
    (hn : ∀ c ∈ p, jsLineTerm c = false) :
    sshUrlMatch ("git@" ++ String.mk host ++ ":" ++ String.mk p) =
      some (String.mk host, String.mk p) := by
  have h1 : ("git@" ++ String.mk host ++ ":" ++ String.mk p).toList
      = 'g' :: 'i' :: 't' :: '@' :: (host ++ ':' :: p) := by
    simp only [String.toList, String.data_append]
    simp
  have htake : (host ++ ':' :: p).takeWhile (fun c => decide (c ≠ ':')) = host := by
    rw [List.takeWhile_append_of_pos (by simpa using hc)]
    simp
  have hdrop : (host ++ ':' :: p).dropWhile (fun c => decide (c ≠ ':')) =
      ':' :: p := by
    rw [List.dropWhile_append_of_pos (by simpa using hc)]
    simp
  have hmatch : sshUrlMatchList ('g' :: 'i' :: 't' :: '@' :: (host ++ ':' :: p)) =
      some (host, p) := by
    simp only [sshUrlMatchList]
    rw [if_pos (by simp)]
    simp only [htake, hdrop]
    rw [if_pos (by simp [hh, hp]; exact hn)]
  unfold sshUrlMatch
  rw [h1, hmatch]
  rfl

/-- Fixture: the spec's example SSH account `Work`. -/
def acctWorkSSH : GitAccount :=
  { id := "idW", name := "Work", username := "alice", email := "alice@co.com",
    authType := AuthType.ssh, sshKeyPath := some "~/.ssh/id_work",
    sshHost := some "github.com-work" }

/-- C3 counterexample: the rewrite applies only to the fixed user `git`, not
to an arbitrary `user@host:path` shorthand as the claim states.  For the SSH
account with host alias `github.com-work` and the remote
`alice@github.com:alice/project.git`, the claim requires the rewritten
remote `alice@github.com-work:alice/project.git`, but the code leaves the
remote unmodified (no `setRemoteUrl` call at all). -/
theorem configureSSH_any_user_cex :
    configureSSHForAccount acctWorkSSH
        (some "alice@github.com:alice/project.git") = none ∧
    configureSSHForAccount acctWorkSSH
        (some "alice@github.com:alice/project.git") ≠
      some "alice@github.com-work:alice/project.git" := by
  constructor
  · rfl
  · intro h
    cases h

/-- C3 (amended): for an SSH account with a truthy host alias: a missing
remote URL is a silent no-op; a URL matching the shorthand `git@host:path`
(fixed user `git`, colon-free non-empty host, non-empty path free of line
terminators) is rewritten by replacing only the host segment with the
account's `sshHost`, keeping the `git@` user and the path unchanged; any
other URL is left unmodified. -/
theorem configureSSH_spec (account : GitAccount) :
    (configureSSHForAccount account none = none)
    ∧ (∀ url, sshUrlMatch url = none →
      configureSSHForAccount account (some url) = none)
    ∧ (∀ hostAlias host p, account.authType = AuthType.ssh →
      account.sshHost = some hostAlias → hostAlias ≠ "" →
      host ≠ [] → (∀ c ∈ host, c ≠ ':') → p ≠ [] →
      (∀ c ∈ p, jsLineTerm c = false) →
      configureSSHForAccount account
        (some ("git@" ++ String.mk host ++ ":" ++ String.mk p)) =
        some ("git@" ++ hostAlias ++ ":" ++ String.mk p)) := by
  refine ⟨?_, ?_, ?_⟩
  · unfold configureSSHForAccount
    split
    · rfl
    · rfl
  · intro url h
    unfold configureSSHForAccount
    split
    · rfl
    · dsimp only
      rw [h]
  · intro hostAlias host p hty hhost halias hh hc hp hn
    unfold configureSSHForAccount
    rw [if_neg (by simp [hty, hhost, truthy, halias])]
    dsimp only
    rw [sshUrlMatch_shorthand host p hh hc hp hn, hhost]
    rfl

/-- C3 witness: the spec's example — remote `git@github.com:alice/project.git`
with host alias `github.com-work` becomes
`git@github.com-work:alice/project.git`; a missing remote is a no-op. -/
theorem configureSSH_spec_witness :
    configureSSHForAccount acctWorkSSH (some "git@github.com:alice/project.git") =
      some "git@github.com-work:alice/project.git" ∧
    configureSSHForAccount acctWorkSSH none = none := by
  constructor
  · have h := (configureSSH_spec acctWorkSSH).2.2 "github.com-work"
      ("github.com".toList) ("alice/project.git".toList) rfl rfl (by decide)
      (by decide) (by decide) (by decide) (by decide)
    have e1 : ("git@" ++ String.mk ("github.com".toList) ++ ":" ++
        String.mk ("alice/project.git".toList)) =
        "git@github.com:alice/project.git" := by decide
    have e2 : ("git@" ++ "github.com-work" ++ ":" ++
        String.mk ("alice/project.git".toList)) =
        "git@github.com-work:alice/project.git" := by decide
    rw [e1, e2] at h
    exact h
  · exact (configureSSH_spec acctWorkSSH).1

/-! ## C8: id generation (corrected) -/

/-- Value of a decimal digit list, most significant digit first (inverse of
`natToDigits`, used to show decimal rendering is injective). -/
def natFromDigits (l : List Char) : Nat :=
  l.foldl (fun acc c => acc * 10 + (c.toNat - 48)) 0

theorem digitChar_toNat (d : Nat) (h : d < 10) :
    (digitChar d).toNat = 48 + d := by
  interval_cases d <;> decide

theorem digitChar_ne_underscore (d : Nat) (h : d < 10) :
    digitChar d ≠ '_' := by
  interval_cases d <;> decide

theorem natFromDigits_natToDigitsAux (fuel : Nat) :
    ∀ n, n ≤ fuel → natFromDigits (natToDigitsAux fuel n) = n := by
  induction fuel with
  | zero =>
    intro n hn
    interval_cases n
    rfl
  | succ fuel ih =>
    intro n hn
    by_cases h0 : n = 0
    · subst h0; rfl
    · have hdiv : n / 10 ≤ fuel := by omega
      unfold natToDigitsAux
      rw [if_neg h0]
      unfold natFromDigits
      rw [List.foldl_append]
      have hrec : List.foldl (fun acc c => acc * 10 + (c.toNat - 48)) 0
          (natToDigitsAux fuel (n / 10)) = n / 10 := ih (n / 10) hdiv
      rw [hrec]
      simp only [List.foldl_cons, List.foldl_nil]
      rw [digitChar_toNat (n % 10) (Nat.mod_lt n (by omega))]
      omega

theorem natToDigitsAux_no_underscore (fuel : Nat) :
    ∀ n c, c ∈ natToDigitsAux fuel n → c ≠ '_' := by
  induction fuel with
  | zero => intro n c hc; cases hc
  | succ fuel ih =>
    intro n c hc
    by_cases h0 : n = 0
    · subst h0; cases hc
    · unfold natToDigitsAux at hc
      rw [if_neg h0] at hc
      rcases List.mem_append.mp hc with h | h
      · exact ih (n / 10) c h
      · have hc2 : c = digitChar (n % 10) := by simpa using h
        rw [hc2]
        exact digitChar_ne_underscore (n % 10) (Nat.mod_lt n (by omega))

theorem natRepr_no_underscore (n : Nat) : '_' ∉ (natRepr n).data := by
  unfold natRepr
  by_cases h0 : n = 0
  · rw [if_pos h0]; decide
  · rw [if_neg h0]
    intro hmem
    exact natToDigitsAux_no_underscore n n '_' hmem rfl

theorem natRepr_injective (n m : Nat) (h : natRepr n = natRepr m) : n = m := by
  have key : ∀ k, k ≠ 0 → natFromDigits (natToDigits k) = k := fun k _ =>
    natFromDigits_natToDigitsAux k k (Nat.le_refl k)
  unfold natRepr at h
  by_cases hn : n = 0 <;> by_cases hm : m = 0
  · omega
  · rw [if_pos hn, if_neg hm] at h
    have hdata : ['0'] = natToDigits m := congrArg String.data h
    have : natFromDigits (natToDigits m) = 0 := by rw [← hdata]; rfl
    rw [key m hm] at this
    omega
  · rw [if_neg hn, if_pos hm] at h
    have hdata : natToDigits n = ['0'] := congrArg String.data h
    have : natFromDigits (natToDigits n) = 0 := by rw [hdata]; rfl
    rw [key n hn] at this
    omega
  · rw [if_neg hn, if_neg hm] at h
    have hdata : natToDigits n = natToDigits m := congrArg String.data h
    have := key n hn
    rw [hdata, key m hm] at this
    omega

theorem append_underscore_inj (as : List Char) :
    ∀ (cs bs ds : List Char), '_' ∉ as → '_' ∉ cs →
    as ++ '_' :: bs = cs ++ '_' :: ds → as = cs ∧ bs = ds := by
  induction as with
  | nil =>
    intro cs bs ds _ hcs h
    cases cs with
    | nil => simpa using h
    | cons c cs2 =>
      have hc : c = '_' := by
        have := congrArg (fun l => l.head?) h
        simpa using this.symm
      exact absurd (hc ▸ List.mem_cons_self c cs2) hcs
  | cons a as2 ih =>
    intro cs bs ds has hcs h
    cases cs with
    | nil =>
      have ha : a = '_' := by
        have := congrArg (fun l => l.head?) h
        simpa using this
      exact absurd (ha ▸ List.mem_cons_self a as2) has
    | cons c cs2 =>
      have hac : a = c ∧ as2 ++ '_' :: bs = cs2 ++ '_' :: ds := by
        simpa using h
      have hrest := ih cs2 bs ds (fun hx => has (List.mem_cons_of_mem a hx))
        (fun hx => hcs (List.mem_cons_of_mem c hx)) hac.2
      exact ⟨by rw [hac.1, hrest.1], hrest.2⟩

/-- Injectivity of `generateId` in its environment inputs: the decimal
timestamp block contains no underscore, so the first underscore after the
`account_` prefix splits the id unambiguously. -/
theorem generateId_inj (n m : Nat) (r s : String)
    (h : generateId n r = generateId m s) :
    n = m ∧ r = s := by
  unfold generateId at h
  have hdata := congrArg String.data h
  simp only [String.data_append] at hdata
  have hdata2 : ['a', 'c', 'c', 'o', 'u', 'n', 't', '_'] ++
      ((natRepr n).data ++ '_' :: r.data) =
      ['a', 'c', 'c', 'o', 'u', 'n', 't', '_'] ++
      ((natRepr m).data ++ '_' :: s.data) := by
    simpa [List.append_assoc] using hdata
  have hcancel := List.append_cancel_left hdata2
  have hsplit := append_underscore_inj (natRepr n).data (natRepr m).data
    r.data s.data (natRepr_no_underscore n) (natRepr_no_underscore m) hcancel
  refine ⟨natRepr_injective n m ?_, ?_⟩
  · exact String.ext hsplit.1
  · exact String.ext hsplit.2

/-- C8 counterexample: two successive `addAccount` calls that receive the
same timestamp and the same random suffix from the environment — possible
under rapid successive calls, since the code never checks new ids against
existing ones — assign the very same id twice. -/
theorem generateId_collision_cex :
    ((addAccount (addAccount { accounts := [], secrets := [] }
        { name := "Work", username := "u", email := "e",
          authType := AuthType.ssh, sshKeyPath := none, sshHost := none }
        none 5 "abc").snd
      { name := "Personal", username := "u2", email := "e2",
        authType := AuthType.ssh, sshKeyPath := none, sshHost := none }
      none 5 "abc").snd.accounts.map (fun a => a.id)) =
      ["account_5_abc", "account_5_abc"] ∧
    ¬ (((addAccount (addAccount { accounts := [], secrets := [] }
        { name := "Work", username := "u", email := "e",
          authType := AuthType.ssh, sshKeyPath := none, sshHost := none }
        none 5 "abc").snd
      { name := "Personal", username := "u2", email := "e2",
        authType := AuthType.ssh, sshKeyPath := none, sshHost := none }
      none 5 "abc").snd.accounts.map (fun a => a.id)).Nodup) := by
  constructor
  · rfl
  · decide

/-- C8 (amended): id generation is injective in the environment inputs —
`addAccount` assigns exactly `generateId now rand`, and two generated ids
coincide only when both the timestamp and the random suffix coincide;
uniqueness therefore holds exactly when the environment never repeats the
(timestamp, suffix) pair, not unconditionally. -/
theorem generateId_injective_in_env (st : ManagerState) (draft : AccountDraft)
    (pat : Option String) (n m : Nat) (r s : String) :
    ((addAccount st draft pat n r).fst.id = generateId n r)
    ∧ ((n, r) ≠ (m, s) → generateId n r ≠ generateId m s) := by
  refine ⟨rfl, ?_⟩
  intro hne h
  have hinj := generateId_inj n m r s h
  exact hne (by rw [hinj.1, hinj.2])

/-- C8 witness: distinct timestamps or suffixes give distinct ids. -/
theorem generateId_injective_in_env_witness :
    generateId 5 "abc" ≠ generateId 6 "abc" ∧
    generateId 5 "abc" ≠ generateId 5 "abd" :=
  ⟨(generateId_injective_in_env { accounts := [], secrets := [] }
      { name := "x", username := "u", email := "e", authType := AuthType.ssh,
        sshKeyPath := none, sshHost := none } none 5 6 "abc" "abc").2
    (by decide),
   (generateId_injective_in_env { accounts := [], secrets := [] }
      { name := "x", username := "u", email := "e", authType := AuthType.ssh,
        sshKeyPath := none, sshHost := none } none 5 5 "abc" "abd").2
    (by decide)⟩

/-! ## C5: SSH config entry idempotence -/

/-- Decomposition of text into lines at newline characters (the measuring
device for "exactly one `Host` line"; always at least one, possibly empty,
line). -/
def splitLines : List Char → List (List Char)
  | [] => [[]]
  | c :: cs =>
    if c = '\n' then [] :: splitLines cs
    else
      match splitLines cs with
      | [] => [[c]]
      | l :: ls => (c :: l) :: ls

/-- Concatenation of lines with newline separators (left inverse domain of
`splitLines`). -/
def joinNL : List (List Char) → List Char
  | [] => []
  | [l] => l
  | l :: ls => l ++ '\n' :: joinNL ls

theorem splitLines_ne_nil (cs : List Char) : splitLines cs ≠ [] := by
  cases cs with
  | nil => simp [splitLines]
  | cons c cs =>
    unfold splitLines
    by_cases h : c = '\n'
    · simp [h]
    · rw [if_neg h]
      cases splitLines cs <;> simp

theorem splitLines_append_newline (xs ys : List Char) :
    splitLines (xs ++ '\n' :: ys) = splitLines xs ++ splitLines ys := by
  induction xs with
  | nil => simp [splitLines]
  | cons c cs ih =>
    show splitLines (c :: (cs ++ '\n' :: ys)) =
      splitLines (c :: cs) ++ splitLines ys
    by_cases h : c = '\n'
    · simp only [splitLines, if_pos h, ih, List.cons_append]
    · simp only [splitLines, if_neg h, ih]
      rcases hs : splitLines cs with _ | ⟨l, ls⟩
      · exact absurd hs (splitLines_ne_nil cs)
      · rfl

theorem splitLines_no_newline (xs : List Char) (h : '\n' ∉ xs) :
    splitLines xs = [xs] := by
  induction xs with
  | nil => rfl
  | cons c cs ih =>
    have hc : c ≠ '\n' := fun hcc => h (hcc ▸ List.mem_cons_self c cs)
    have hcs : '\n' ∉ cs := fun hx => h (List.mem_cons_of_mem c hx)
    unfold splitLines
    rw [if_neg hc, ih hcs]

theorem splitLines_joinNL (ls : List (List Char)) (hne : ls ≠ [])
    (h : ∀ l ∈ ls, '\n' ∉ l) : splitLines (joinNL ls) = ls := by
  induction ls with
  | nil => exact absurd rfl hne
  | cons l ls ih =>
    cases ls with
    | nil =>
      show splitLines (joinNL [l]) = [l]
      unfold joinNL
      exact splitLines_no_newline l (h l (List.mem_cons_self l []))
    | cons l2 ls2 =>
      show splitLines (l ++ '\n' :: joinNL (l2 :: ls2)) = l :: l2 :: ls2
      rw [splitLines_append_newline,
        splitLines_no_newline l (h l (List.mem_cons_self l (l2 :: ls2))),
        ih (by simp) (fun x hx => h x (List.mem_cons_of_mem l hx))]
      rfl

theorem head_splitLines_pre (xs : List Char) :
    ∀ l ls, splitLines xs = l :: ls → l <+: xs := by
  induction xs with
  | nil =>
    intro l ls h
    have : l = [] := by
      have h2 : ([] : List Char) :: [] = l :: ls := by
        simpa [splitLines] using h
      exact (List.cons.injEq _ _ _ _ ▸ h2).1.symm
    simp [this]
  | cons c cs ih =>
    intro l ls h
    unfold splitLines at h
    by_cases hc : c = '\n'
    · rw [if_pos hc] at h
      have : l = [] := (List.cons.injEq _ _ _ _ ▸ h).1.symm
      simp [this]
    · rw [if_neg hc] at h
      rcases hs : splitLines cs with _ | ⟨m, ms⟩
      · exact absurd hs (splitLines_ne_nil cs)
      · rw [hs] at h
        have hl : l = c :: m := (List.cons.injEq _ _ _ _ ▸ h).1.symm
        obtain ⟨t, ht⟩ := ih m ms hs
        rw [hl]
        exact ⟨t, by rw [List.cons_append, ht]⟩

theorem mem_splitLines_inf (xs : List Char) (l : List Char)
    (h : l ∈ splitLines xs) : l <:+: xs := by
  induction xs with
  | nil =>
    have : l = [] := by simpa [splitLines] using h
    exact ⟨[], [], by simp [this]⟩
  | cons c cs ih =>
    unfold splitLines at h
    by_cases hc : c = '\n'
    · rw [if_pos hc] at h
      rcases List.mem_cons.mp h with h2 | h2
      · exact ⟨[], c :: cs, by simp [h2]⟩
      · exact List.infix_cons (ih h2)
    · rw [if_neg hc] at h
      rcases hs : splitLines cs with _ | ⟨m, ms⟩
      · exact absurd hs (splitLines_ne_nil cs)
      · rw [hs] at h
        rcases List.mem_cons.mp h with h2 | h2
        · obtain ⟨t, ht⟩ := head_splitLines_pre cs m ms hs
          have hpre : l ++ t = c :: cs := by
            rw [h2, List.cons_append, ht]
          exact ⟨[], t, by simpa using hpre⟩
        · have : l ∈ splitLines cs := by rw [hs]; exact List.mem_cons_of_mem m h2
          exact List.infix_cons (ih this)

theorem generateSSHConfigEntry_eq (a : GitAccount) (hostAlias kp : String)
    (hty : a.authType = AuthType.ssh) (hh : a.sshHost = some hostAlias)
    (hk : a.sshKeyPath = some kp) (hal : hostAlias ≠ "") (hkp : kp ≠ "") :
    generateSSHConfigEntry a =
      "\n# Git Account Manager - " ++ a.name ++ "\nHost " ++ hostAlias ++
      "\n    HostName github.com\n    User git\n    IdentityFile " ++ kp ++
      "\n    IdentitiesOnly yes\n" := by
  unfold generateSSHConfigEntry
  rw [hh, hk]
  rw [if_neg (by simp [hty, truthy, hal, hkp])]
  rfl

/-- The lines of the generated SSH config block after its leading blank
line (proof-support decomposition of the appended text). -/
def sshEntryLines (nm hostAlias kp : String) : List (List Char) :=
  ["# Git Account Manager - ".toList ++ nm.toList,
   "Host ".toList ++ hostAlias.toList, "    HostName github.com".toList,
   "    User git".toList, "    IdentityFile ".toList ++ kp.toList,
   "    IdentitiesOnly yes".toList, []]

theorem template_toList_joinNL (nm hostAlias kp : String) :
    ("\n# Git Account Manager - " ++ nm ++ "\nHost " ++ hostAlias ++
     "\n    HostName github.com\n    User git\n    IdentityFile " ++ kp ++
     "\n    IdentitiesOnly yes\n").toList =
    joinNL ([] :: sshEntryLines nm hostAlias kp) := by
  simp [sshEntryLines, joinNL, String.toList, String.data_append,
    List.append_assoc]

theorem template_lines (nm hostAlias kp : String) (h1 : '\n' ∉ nm.toList)
    (h2 : '\n' ∉ hostAlias.toList) (h3 : '\n' ∉ kp.toList) :
    splitLines (joinNL ([] :: sshEntryLines nm hostAlias kp)) =
    [] :: sshEntryLines nm hostAlias kp := by
  unfold sshEntryLines
  apply splitLines_joinNL _ (by simp)
  intro l hl
  simp only [List.mem_cons] at hl
  rcases hl with h | h | h | h | h | h | h | h | h
  · simp [h]
  · subst h
    intro hmem
    rcases List.mem_append.mp hmem with hx | hx
    · revert hx; decide
    · exact h1 hx
  · subst h
    intro hmem
    rcases List.mem_append.mp hmem with hx | hx
    · revert hx; decide
    · exact h2 hx
  · subst h; decide
  · subst h; decide
  · subst h
    intro hmem
    rcases List.mem_append.mp hmem with hx | hx
    · revert hx; decide
    · exact h3 hx
  · subst h; decide
  · simp [h]
  · simp at h

theorem head_ne_beq_false (x y : List Char) (h : x.head? ≠ y.head?) :
    (x == y) = false := by
  rw [beq_eq_false_iff_ne]
  intro hxy
  exact h (by rw [hxy])

theorem count_tail_lines (nm hostAlias kp : String) :
    (sshEntryLines nm hostAlias kp).count
      ("Host ".toList ++ hostAlias.toList) = 1 := by
  unfold sshEntryLines
  have htarget : ("Host ".toList ++ hostAlias.toList).head? = some 'H' := rfl
  have e1 : (("# Git Account Manager - ".toList ++ nm.toList : List Char) ==
      ("Host ".toList ++ hostAlias.toList)) = false :=
    head_ne_beq_false _ _ (by
      rw [htarget, show ("# Git Account Manager - ".toList ++
        nm.toList).head? = some '#' from rfl]
      decide)
  have e3 : (("    HostName github.com".toList : List Char) ==
      ("Host ".toList ++ hostAlias.toList)) = false :=
    head_ne_beq_false _ _ (by rw [htarget]; decide)
  have e4 : (("    User git".toList : List Char) ==
      ("Host ".toList ++ hostAlias.toList)) = false :=
    head_ne_beq_false _ _ (by rw [htarget]; decide)
  have e5 : (("    IdentityFile ".toList ++ kp.toList : List Char) ==
      ("Host ".toList ++ hostAlias.toList)) = false :=
    head_ne_beq_false _ _ (by
      rw [htarget, show ("    IdentityFile ".toList ++
        kp.toList).head? = some ' ' from rfl]
      decide)
  have e6 : (("    IdentitiesOnly yes".toList : List Char) ==
      ("Host ".toList ++ hostAlias.toList)) = false :=
    head_ne_beq_false _ _ (by rw [htarget]; decide)
  have e7 : (([] : List Char) == ("Host ".toList ++ hostAlias.toList)) = false :=
    head_ne_beq_false _ _ (by rw [htarget]; decide)
  simp [List.count_cons, e1, e3, e4, e5, e6, e7]

theorem count_splitLines_zero (old : List Char) (target : List Char)
    (h : ¬ target <:+: old) :
    (splitLines old).count target = 0 := by
  rw [List.count_eq_zero]
  intro hmem
  exact h (mem_splitLines_inf old target hmem)

theorem entry_contains_host (a : GitAccount)
    (h : generateSSHConfigEntry a ≠ "") :
    ("Host " ++ a.sshHost.getD "").toList <:+:
      (generateSSHConfigEntry a).toList := by
  by_cases hg : a.authType ≠ AuthType.ssh ∨ ¬ truthy a.sshHost ∨
      ¬ truthy a.sshKeyPath
  · exact absurd (by unfold generateSSHConfigEntry; rw [if_pos hg]) h
  · have hb : generateSSHConfigEntry a =
        "\n# Git Account Manager - " ++ a.name ++ "\nHost " ++
        a.sshHost.getD "" ++
        "\n    HostName github.com\n    User git\n    IdentityFile " ++
        a.sshKeyPath.getD "" ++ "\n    IdentitiesOnly yes\n" := by
      unfold generateSSHConfigEntry
      rw [if_neg hg]
    rw [hb]
    refine ⟨("\n# Git Account Manager - " ++ a.name).toList ++ ['\n'],
      ("\n    HostName github.com\n    User git\n    IdentityFile " ++
        a.sshKeyPath.getD "" ++ "\n    IdentitiesOnly yes\n").toList, ?_⟩
    simp [String.toList, String.data_append, List.append_assoc]

theorem configured_after_append (a : GitAccount) (old : String)
    (h : generateSSHConfigEntry a ≠ "") :
    isSSHHostConfigured (a.sshHost.getD "")
      (some (old ++ generateSSHConfigEntry a)) = true := by
  unfold isSSHHostConfigured
  apply (strIncludes_iff _ _).mpr
  obtain ⟨s, t, hst⟩ := entry_contains_host a h
  refine ⟨old.toList ++ s, t, ?_⟩
  rw [show (old ++ generateSSHConfigEntry a).toList =
    old.toList ++ (generateSSHConfigEntry a).toList from String.data_append _ _]
  rw [← hst]
  simp [List.append_assoc]

theorem addSSH_branch (a : GitAccount) (cfg : Option String) :
    addSSHConfigEntry a cfg = cfg ∨
    (¬ (a.authType ≠ AuthType.ssh ∨ ¬ truthy a.sshHost = true) ∧
     generateSSHConfigEntry a ≠ "" ∧
     addSSHConfigEntry a cfg =
       some (cfg.getD "" ++ generateSSHConfigEntry a)) := by
  unfold addSSHConfigEntry
  split
  · exact Or.inl rfl
  next hg =>
    split
    · exact Or.inl rfl
    next he =>
      split
      · exact Or.inl rfl
      next hc =>
        exact Or.inr ⟨hg, he, rfl⟩

/-- C5: `addSSHConfigEntry` is idempotent — a second call finds the host
declaration it has just appended and leaves the config unchanged — every
call either leaves the config unchanged or appends a suffix to the existing
content (never removing or editing it), and for an SSH account with a key
path and a (newline-free) alias not yet configured, calling it twice
produces a config with exactly one `Host <alias>` line. -/
theorem addSSHConfigEntry_spec (a : GitAccount) (cfg : Option String) :
    (addSSHConfigEntry a (addSSHConfigEntry a cfg) = addSSHConfigEntry a cfg)
    ∧ (addSSHConfigEntry a cfg = cfg ∨
      ∃ s, addSSHConfigEntry a cfg = some (cfg.getD "" ++ s))
    ∧ (∀ hostAlias kp, a.authType = AuthType.ssh →
      a.sshHost = some hostAlias → a.sshKeyPath = some kp →
      hostAlias ≠ "" → kp ≠ "" → '\n' ∉ a.name.toList →
      '\n' ∉ hostAlias.toList → '\n' ∉ kp.toList →
      isSSHHostConfigured hostAlias cfg = false →
      ∃ content,
        addSSHConfigEntry a (addSSHConfigEntry a cfg) = some content ∧
        addSSHConfigEntry a cfg = some content ∧
        (splitLines content.toList).count (("Host " ++ hostAlias).toList) =
          1) := by
  have hidem : addSSHConfigEntry a (addSSHConfigEntry a cfg) =
      addSSHConfigEntry a cfg := by
    rcases addSSH_branch a cfg with h | ⟨hg, he, heq⟩
    · rw [h]
      exact h
    · rw [heq]
      unfold addSSHConfigEntry
      rw [if_neg hg, if_neg fun hcontra => he hcontra,
        if_pos (configured_after_append a (cfg.getD "") he)]
  refine ⟨hidem, ?_, ?_⟩
  · rcases addSSH_branch a cfg with h | ⟨_, _, heq⟩
    · exact Or.inl h
    · exact Or.inr ⟨generateSSHConfigEntry a, heq⟩
  · intro hostAlias kp hty hh hk hal hkp hn1 hn2 hn3 hconf0
    have hentry := generateSSHConfigEntry_eq a hostAlias kp hty hh hk hal hkp
    have hene : generateSSHConfigEntry a ≠ "" := by
      rw [hentry]
      intro hcontra
      have h2 := congrArg String.data hcontra
      simp [String.data_append] at h2
    have hfirst : addSSHConfigEntry a cfg =
        some (cfg.getD "" ++ generateSSHConfigEntry a) := by
      have hconf0g : isSSHHostConfigured (a.sshHost.getD "") cfg = false := by
        rw [hh]
        exact hconf0
      unfold addSSHConfigEntry
      rw [if_neg (by simp [hty, hh, truthy, hal]), if_neg hene,
        if_neg (by simp [hconf0g])]
    refine ⟨cfg.getD "" ++ generateSSHConfigEntry a, ?_, hfirst, ?_⟩
    · rw [hidem]
      exact hfirst
    · have htt : ("Host " ++ hostAlias).toList =
          "Host ".toList ++ hostAlias.toList := String.data_append _ _
      have hct : (cfg.getD "" ++ generateSSHConfigEntry a).toList =
          (cfg.getD "").toList ++
            joinNL ([] :: sshEntryLines a.name hostAlias kp) := by
        rw [show (cfg.getD "" ++ generateSSHConfigEntry a).toList =
          (cfg.getD "").toList ++ (generateSSHConfigEntry a).toList from
          String.data_append _ _]
        rw [show (generateSSHConfigEntry a).toList =
          joinNL ([] :: sshEntryLines a.name hostAlias kp) from by
            rw [hentry]; exact template_toList_joinNL a.name hostAlias kp]
      rw [hct,
        show joinNL ([] :: sshEntryLines a.name hostAlias kp) =
          '\n' :: joinNL (sshEntryLines a.name hostAlias kp) from rfl,
        splitLines_append_newline, List.count_append, htt]
      have hz : (splitLines (cfg.getD "").toList).count
          ("Host ".toList ++ hostAlias.toList) = 0 := by
        apply count_splitLines_zero
        cases cfg with
        | none =>
          intro hinf
          obtain ⟨s, t, hst⟩ := hinf
          have hlen := congrArg List.length hst
          simp [List.length_append] at hlen
        | some content =>
          intro hinf
          have hfalse : strIncludes content ("Host " ++ hostAlias) = false := by
            simpa [isSSHHostConfigured] using hconf0
          rw [strIncludes_false_iff] at hfalse
          rw [htt] at hfalse
          exact hfalse hinf
      have hlines : splitLines (joinNL (sshEntryLines a.name hostAlias kp)) =
          sshEntryLines a.name hostAlias kp := by
        have h8 := template_lines a.name hostAlias kp hn1 hn2 hn3
        rw [show joinNL ([] :: sshEntryLines a.name hostAlias kp) =
            '\n' :: joinNL (sshEntryLines a.name hostAlias kp) from rfl] at h8
        rw [show splitLines ('\n' :: joinNL (sshEntryLines a.name hostAlias kp))
            = [] :: splitLines (joinNL (sshEntryLines a.name hostAlias kp))
            from by rw [splitLines]; simp] at h8
        simpa using h8
      rw [hz, hlines, count_tail_lines a.name hostAlias kp]

/-- C5 witness: starting from a missing SSH config, two calls for the
example account produce a config with exactly one `Host github.com-work`
line, the second call being a no-op. -/
theorem addSSHConfigEntry_spec_witness :
    ∃ content,
      addSSHConfigEntry acctWorkSSH (addSSHConfigEntry acctWorkSSH none) =
        some content ∧
      addSSHConfigEntry acctWorkSSH none = some content ∧
      (splitLines content.toList).count
        (("Host " ++ "github.com-work").toList) = 1 :=
  (addSSHConfigEntry_spec acctWorkSSH none).2.2 "github.com-work"
    "~/.ssh/id_work" rfl rfl rfl (by decide) (by decide) (by decide)
    (by decide) (by decide) rfl
